import Mathlib

/- Verification development for the decision-and-acquisition engine of the
zdf-download repository (file zdf_download.py).

Modelling conventions:
* Python strings are Lean strings; Python string comparison (by code point,
  as used by sorted) is modelled by strLtChars / pyLe below, because the
  builtin String order does not reduce in the kernel.
* External collaborators (clock, feed parsing, HTTP fetches, the regex and
  date libraries applied to external data, the downloader subprocess) are
  oracle fields of Env, following the spec, which treats them as
  capabilities.
* A Python operation that can raise an exception is modelled with Option
  (none = an exception escaped), and the pipeline state machine uses
  RunResult, whose exn constructor carries the state at the moment the
  exception escaped (side effects already performed persist).
* The classes History and Configuration are imported by the source but their
  files are not part of the sources given; their two operations are modelled
  from the spec and marked as such in their doc comments. -/

namespace ZDF

/-- Python comparison of two characters, by code point. -/
def charLtB (a b : Char) : Bool := a.toNat < b.toNat

/-- Python lexicographic string comparison (strict less-than) on the
character lists of the two strings. -/
def strLtChars : List Char → List Char → Bool
  | [], [] => false
  | [], _ :: _ => true
  | _ :: _, [] => false
  | a :: as, b :: bs =>
    if charLtB a b then true
    else if charLtB b a then false
    else strLtChars as bs

/-- Python string less-or-equal, the comparison used by sorted() on line 69. -/
def pyLeB (a b : String) : Bool := !(strLtChars b.data a.data)

/-- The propositional form of pyLeB, used as the sorting relation. -/
def pyLe (a b : String) : Prop := pyLeB a b = true

instance : DecidableRel pyLe := fun a b => Bool.decEq (pyLeB a b) true

/-- Python substring containment (needle in haystack): needle is a prefix of
some suffix of haystack; the empty needle is contained in everything. -/
def containsSubAux (n : List Char) : List Char → Bool
  | [] => n.isEmpty
  | c :: t => n.isPrefixOf (c :: t) || containsSubAux n t

/-- Python substring test on strings. -/
def containsSub (needle hay : String) : Bool := containsSubAux needle.data hay.data

/-- The filter lambda of line 69: keep names that contain the configured
filename prefix and the substring .mp4. -/
def mediaFilter (pfx : String) (name : String) : Bool :=
  containsSub pfx name && containsSub ".mp4" name

/-- Helper for splitextStem. The input is the reversed character list of the
filename; drop the characters of the extension together with the final dot,
returning none when the name has no dot at all. -/
def rstripExt : List Char → Option (List Char)
  | [] => none
  | c :: rest => if c == '.' then some rest else rstripExt rest

/-- Python os.path.splitext(s)[0] (line 73): cut the name at its last dot,
except that no split happens when every character before that dot is itself a
dot (the leading-dots rule of splitext). -/
def splitextStem (s : String) : String :=
  match rstripExt s.data.reverse with
  | none => s
  | some rstem =>
    if rstem.reverse.all (fun c => c == '.') then s else String.mk rstem.reverse

/-- Parse the part of the episode pattern that follows the letter S: a
nonempty maximal digit run, the letter E, and a nonempty maximal digit run;
trailing text is ignored, exactly as the greedy uncapped regex does. -/
def seAfter (rest : List Char) : Option (List Char × List Char) :=
  if (rest.takeWhile Char.isDigit).isEmpty then none
  else
    match rest.dropWhile Char.isDigit with
    | [] => none
    | c :: r2 =>
      if c == 'E' then
        if (r2.takeWhile Char.isDigit).isEmpty then none
        else some (rest.takeWhile Char.isDigit, r2.takeWhile Char.isDigit)
      else none

/-- All successful matches of the season/episode pattern, one candidate per
admissible split position, listed from left to right. prev is the character
immediately before the current position. requireSpace selects between the two
source regexes: true gives the pattern of line 74 (a space must precede the
S), false the pattern of line 116 (no space required). -/
def seCandidates (requireSpace : Bool) : Option Char → List Char → List (List Char × List Char)
  | _, [] => []
  | prev, c :: rest =>
    if c == 'S' && (!requireSpace || prev == some ' ') then
      match seAfter rest with
      | some g => g :: seCandidates requireSpace (some c) rest
      | none => seCandidates requireSpace (some c) rest
    else seCandidates requireSpace (some c) rest

/-- Python re.match with the episode pattern: the greedy leading wildcard
makes the engine commit to the rightmost split position whose remainder
completes the match, hence the last candidate. Returns the two digit groups
(season digits, episode digits); none models a failed match, on which the
source immediately raises via .group(...). -/
def parseSE (requireSpace : Bool) (s : String) : Option (String × String) :=
  ((seCandidates requireSpace none s.data).getLast?).map
    (fun g => (String.mk g.1, String.mk g.2))

/-- Python int() applied to a digit string. -/
def digitsToNat (l : List Char) : Nat :=
  l.foldl (fun acc c => acc * 10 + (c.toNat - 48)) 0

/-- The format spec 0>2d of line 80: zero-pad the decimal representation to
width two. -/
def pad2 (n : Nat) : String := if n < 10 then "0" ++ toString n else toString n

/-- Line 69: the sorted folder listing, filtered down to matching media
names. The source sorts the raw listing first and then filters; filtering a
sorted list leaves it sorted. -/
def episodeFiles (pfx : String) (names : List String) : List String :=
  (List.insertionSort pyLe names).filter (mediaFilter pfx)

/-- Lines 67-85, find_filename, over an explicit folder listing, with the
current two-digit year passed in as season. Returns none when the regex match
of line 74 fails and line 75 therefore raises AttributeError. -/
def find_filename_core (pfx season : String) (names : List String) : Option String :=
  match (episodeFiles pfx names).getLast? with
  | some newest =>
    match parseSE true (splitextStem newest) with
    | none => none
    | some g =>
      let filename_number : String := if season == g.1 then g.2 else "00"
      let new_episode_number : Nat := digitsToNat filename_number.data + 1
      some (pfx ++ " S" ++ season ++ "E" ++ pad2 new_episode_number)
  | none => some (pfx ++ " S" ++ season ++ "E01")

/-- The episode number embedded in the name that find_filename_core returns;
same control flow as find_filename_core, with the final formatting dropped.
The lemma find_filename_core_eq below ties the two together. -/
def next_episode_number (pfx season : String) (names : List String) : Option Nat :=
  match (episodeFiles pfx names).getLast? with
  | some newest =>
    match parseSE true (splitextStem newest) with
    | none => none
    | some g =>
      let filename_number : String := if season == g.1 then g.2 else "00"
      some (digitsToNat filename_number.data + 1)
  | none => some 1

/-- One feed entry, as the field-name to value mapping that feedparser hands
over; entry.get(k) is association-list lookup, none for a missing field. -/
abbrev Entry := List (String × String)

/-- Python entry.get(key). -/
def entryGet (e : Entry) (k : String) : Option String := List.lookup k e

/-- The filter block of a show configuration (configuration.py is not among
the given sources; the fields are the three the source reads, as the spec
describes them). -/
structure ShowFilter where
  regex : Option String
  regex_field : Option String
  min_date : Option String
deriving DecidableEq

/-- The download block of a show configuration: target folder and filename
prefix, as read on lines 69, 80, 83, 91. -/
structure DownloadConfiguration where
  folder : String
  filename : String
deriving DecidableEq

/-- One tracked show, as read by check_show and should_download. -/
structure ShowConfiguration where
  feed_url : String
  download : DownloadConfiguration
  filter : Option ShowFilter
deriving DecidableEq

/-- Python truthiness of an optional string attribute: None and the empty
string are falsy, which is what the bare if tests of lines 41 and 47 use. -/
def truthyS : Option String → Bool
  | none => false
  | some s => !(s == "")

/-- Modelled from the spec: History.is_in_history (history.py is not among
the given sources). The history is the persisted set of downloaded links and
is_in_history is membership; the argument is entry.get("link"), which can be
missing. -/
def is_in_history (hist : List String) : Option String → Bool
  | none => false
  | some l => hist.contains l

/-- Modelled from the spec: History.add_to_history (history.py is not among
the given sources). recordDownloaded idempotently adds the link to the
persisted set. -/
def add_to_history (hist : List String) (url : String) : List String :=
  if hist.contains url then hist else hist ++ [url]

/-- The external world as the core sees it. season is the two-digit current
year of line 70; feed is feedparser.parse(...).entries; released is
is_episode_released(url) (HTTP fetch plus marker test, none = network error
raised); regexSearch is re.search(pattern, text) truthiness; parseDate is
dateutil parser.parse on an abstract timeline (none = parse error raised);
parseRFC is the strptime/strftime pipeline of line 115 (none = ValueError);
fetchPage/extractImage/fetchImage model the thumbnail page fetch, the og:image
extraction regex and the image fetch of lines 125-128; runDownloader is the
youtube-dl subprocess of line 93, returning its exit code. -/
structure Env where
  season : String
  feed : String → List Entry
  released : String → Option Bool
  regexSearch : String → String → Bool
  parseDate : String → Option Int
  parseRFC : String → Option String
  fetchPage : String → Option String
  extractImage : String → Option String
  fetchImage : String → Option String
  runDownloader : String → String → Nat

/-- Lines 61-64: is_episode_released delegates to the released oracle; none
models a raised network error inside requests.get. -/
def is_episode_released (env : Env) (url : String) : Option Bool := env.released url

/-- Lines 54-56: the release-readiness step of should_download. The source
passes entry.get("link"); requests.get(None) raises, hence none. The step
returns the released flag itself: False rejects, True falls through to the
final return True of line 58. -/
def releaseStep (env : Env) (entry : Entry) : Option Bool :=
  match entryGet entry "link" with
  | none => none
  | some l => is_episode_released env l

/-- Lines 46-52: the minimum-date step. parser.parse raises on an unparseable
string and on None (missing published field); both propagate as none. -/
def minDateStep (env : Env) (entry : Entry) (f : ShowFilter) : Option Bool :=
  if truthyS f.min_date then
    match env.parseDate (f.min_date.getD "") with
    | none => none
    | some m =>
      match entryGet entry "published" with
      | none => none
      | some p =>
        match env.parseDate p with
        | none => none
        | some d => if d < m then some false else releaseStep env entry
  else releaseStep env entry

/-- Lines 39-43: the regex step. When both regex and regex_field are truthy,
the named field is looked up and re.search is applied to it; a missing field
makes re.search receive None, which raises TypeError, hence none. -/
def regexStep (env : Env) (entry : Entry) (f : ShowFilter) : Option Bool :=
  if truthyS f.regex && truthyS f.regex_field then
    match entryGet entry (f.regex_field.getD "") with
    | none => none
    | some text =>
      if env.regexSearch (f.regex.getD "") text then minDateStep env entry f
      else some false
  else minDateStep env entry f

/-- Lines 28-58: should_download. some b is a normal boolean return, none a
raised exception. The dedup check of lines 31-33 comes first; with no filter
block the function falls through to return True on line 58. -/
def should_download (env : Env) (hist : List String) (entry : Entry)
    (show_config : ShowConfiguration) : Option Bool :=
  if is_in_history hist (entryGet entry "link") then some false
  else
    match show_config.filter with
    | none => some true
    | some f => regexStep env entry f

/-- The mutable world state threaded through the pipeline. hist is the
history store; files the filesystem as (folder, filename) pairs; processed
records, in order, every entry check_show examined; invoked records each url
passed to the downloader subprocess; showsStarted records each show whose
check_show was entered by check_all_shows. -/
structure PState where
  hist : List String
  files : List (String × String)
  processed : List Entry
  invoked : List String
  showsStarted : List String
deriving DecidableEq

/-- Outcome of a pipeline fragment: ok is a normal return, exn an escaped
Python exception; both carry the state, since side effects performed before a
raise persist. -/
inductive RunResult where
  | ok (st : PState)
  | exn (st : PState)
deriving DecidableEq

/-- Python os.listdir for our file model: the names present in one folder. -/
def listdir (files : List (String × String)) (folder : String) : List String :=
  (files.filter (fun p => p.1 == folder)).map (fun p => p.2)

/-- Lines 67-85: find_filename of the source, reading the folder listing from
the state and the current year from the environment. -/
def find_filename (env : Env) (download : DownloadConfiguration)
    (files : List (String × String)) : Option String :=
  find_filename_core download.filename env.season (listdir files download.folder)

/-- Lines 88-96: download_episode. The filename is computed first (a raise
there escapes, before the try); the subprocess is then invoked with the link
and the templated output path; on exit code 0 the link is recorded in
history and the media file lands in the folder; on a non-zero exit the
CalledProcessError is caught and only logged. url is entry.get("link");
subprocess.run with a None argument raises, hence exn. -/
def download_episode (env : Env) (download : DownloadConfiguration) (st : PState)
    (url? : Option String) : RunResult :=
  match find_filename env download st.files with
  | none => .exn st
  | some filename =>
    match url? with
    | none => .exn st
    | some url =>
      let download_path := download.folder ++ "/" ++ filename ++ ".%(ext)s"
      let st1 : PState := { st with invoked := st.invoked ++ [url] }
      if env.runDownloader url download_path = 0 then
        .ok { st1 with hist := add_to_history st1.hist url,
                       files := st1.files ++ [(download.folder, filename ++ ".mp4")] }
      else .ok st1

/-- Lines 122-130: save_thumb. Recomputes the filename, fetches the entry
page, extracts the og:image url with a regex (a failed match raises through
.group(1)), fetches the image and writes FILENAME-thumb.jpg. No step is
guarded, so each failure escapes as an exception. -/
def save_thumb (env : Env) (download : DownloadConfiguration) (st : PState)
    (entry : Entry) : RunResult :=
  match find_filename env download st.files with
  | none => .exn st
  | some filename =>
    match entryGet entry "link" with
    | none => .exn st
    | some link =>
      match env.fetchPage link with
      | none => .exn st
      | some page =>
        match env.extractImage page with
        | none => .exn st
        | some turl =>
          match env.fetchImage turl with
          | none => .exn st
          | some _ =>
            .ok { st with files := st.files ++ [(download.folder, filename ++ "-thumb.jpg")] }

/-- Lines 110-120: write_nfo. Recomputes the filename, reformats the
published timestamp (strptime raises on a missing or mismatching value),
re-parses season and episode out of the filename with the anchorless pattern
of line 116 (a failed match raises), then writes FILENAME.nfo. -/
def write_nfo (env : Env) (download : DownloadConfiguration) (st : PState)
    (entry : Entry) : RunResult :=
  match find_filename env download st.files with
  | none => .exn st
  | some filename =>
    match entryGet entry "published" with
    | none => .exn st
    | some pub =>
      match env.parseRFC pub with
      | none => .exn st
      | some _aired =>
        match parseSE false filename with
        | none => .exn st
        | some _ =>
          .ok { st with files := st.files ++ [(download.folder, filename ++ ".nfo")] }

/-- Lines 104-108: should_download decides, and an accepted entry goes
through save_thumb, write_nfo, download_episode in that order; an exception
in any step aborts the entry and escapes. -/
def process_entry_aux (env : Env) (showc : ShowConfiguration) (st0 : PState)
    (entry : Entry) : RunResult :=
  match should_download env st0.hist entry showc with
  | none => .exn st0
  | some false => .ok st0
  | some true =>
    match save_thumb env showc.download st0 entry with
    | .exn st1 => .exn st1
    | .ok st1 =>
      match write_nfo env showc.download st1 entry with
      | .exn st2 => .exn st2
      | .ok st2 => download_episode env showc.download st2 (entryGet entry "link")

/-- Lines 103-108: the body of the per-entry loop of check_show. The entry is
first recorded in the processed trace (bookkeeping of the model, not a
source side effect), then handled by process_entry_aux. -/
def process_entry (env : Env) (showc : ShowConfiguration) (st : PState)
    (entry : Entry) : RunResult :=
  process_entry_aux env showc { st with processed := st.processed ++ [entry] } entry

/-- The entry loop of check_show over an already-reversed entry list. -/
def run_entries (env : Env) (showc : ShowConfiguration) : PState → List Entry → RunResult
  | st, [] => .ok st
  | st, e :: rest =>
    match process_entry env showc st e with
    | .exn st1 => .exn st1
    | .ok st1 => run_entries env showc st1 rest

/-- Lines 98-108: check_show. The feed entries are delivered by the feed
oracle and reversed in place before the loop. -/
def check_show (env : Env) (st : PState) (showc : ShowConfiguration) : RunResult :=
  run_entries env showc st (env.feed showc.feed_url).reverse

/-- The show loop of check_all_shows; each show is recorded in showsStarted
when its check_show is entered, and an exception escaping one show aborts the
whole loop, since the source has no handler around it. -/
def run_shows (env : Env) : PState → List ShowConfiguration → RunResult
  | st, [] => .ok st
  | st, s :: rest =>
    match check_show env { st with showsStarted := st.showsStarted ++ [s.feed_url] } s with
    | .exn st1 => .exn st1
    | .ok st1 => run_shows env st1 rest

/-- Lines 132-137: check_all_shows iterates the configured shows in order. -/
def check_all_shows (env : Env) (st : PState) (shows : List ShowConfiguration) : RunResult :=
  run_shows env st shows

/-- The canonical media filename the sequencer itself produces for episode
number e of the given prefix and season. -/
def canonName (pfx season : String) (e : Nat) : String :=
  pfx ++ " S" ++ season ++ "E" ++ pad2 e ++ ".mp4"

/-- The repeated-call experiment of the sequencer-monotonicity property: call
find_filename_core, create a media file carrying the returned name, and
recurse; the produced episode numbers are collected in call order. -/
def seqNums (pfx season : String) : Nat → List String → List Nat
  | 0, _ => []
  | k + 1, names =>
    match find_filename_core pfx season names with
    | none => []
    | some fn =>
      match next_episode_number pfx season names with
      | none => []
      | some n => n :: seqNums pfx season k (names ++ [fn ++ ".mp4"])

/-- The folder-state invariant of the amended sequencer-monotonicity claim:
every name that the media filter matches is a canonical name of the current
season with episode number between 1 and m, and m is realised in the folder
unless m = 0 (in which case no name matches at all). -/
def Inv (pfx season : String) (names : List String) (m : Nat) : Prop :=
  (∀ n ∈ names, mediaFilter pfx n = true →
    ∃ e ∈ List.range (m + 1), 1 ≤ e ∧ n = canonName pfx season e)
  ∧ (m = 0 ∨ canonName pfx season m ∈ names)

instance (pfx season : String) (names : List String) (m : Nat) :
    Decidable (Inv pfx season names m) := by
  unfold Inv
  infer_instance

/-- Projection of a RunResult onto the carried state. -/
def RunResult.state : RunResult → PState
  | .ok st => st
  | .exn st => st

/- Concrete fixtures used by the witness and counterexample theorems. -/

/-- The empty starting state. -/
def stEmpty : PState :=
  { hist := [], files := [], processed := [], invoked := [], showsStarted := [] }

/-- A benign environment: every oracle succeeds, the downloader exits 0. -/
def envOk : Env :=
  { season := "24", feed := fun _ => [], released := fun _ => some true,
    regexSearch := fun _ _ => true, parseDate := fun _ => some 0,
    parseRFC := fun _ => some "2024-01-10", fetchPage := fun _ => some "page",
    extractImage := fun _ => some "img-url", fetchImage := fun _ => some "img",
    runDownloader := fun _ _ => 0 }

/-- A download block: folder f, filename prefix A. -/
def dl0 : DownloadConfiguration := { folder := "f", filename := "A" }

/-- A show with no filter block. -/
def show0 : ShowConfiguration := { feed_url := "u", download := dl0, filter := none }

/-- A filter block with regex and regex_field set, pointing at a field the
test entries do not carry. -/
def filterMiss : ShowFilter :=
  { regex := some "x", regex_field := some "missing", min_date := none }

/-- A show carrying filterMiss. -/
def showMiss : ShowConfiguration :=
  { feed_url := "u", download := dl0, filter := some filterMiss }

/-- An entry whose only field is its link. -/
def entryL : Entry := [("link", "L")]

/-- An entry with no link field at all. -/
def entryNoLink : Entry := [("title", "t")]

/-- Environment for the check_all_shows fault-isolation scenario: the feed of
url u1 delivers one entry. -/
def envShows : Env :=
  { envOk with feed := fun u => if u = "u1" then [[("link", "L1")]] else [[("link", "L2")]] }

/-- First show of the scenario: its filter names a field the entry lacks, so
should_download raises while this show is processed. -/
def showBad : ShowConfiguration :=
  { feed_url := "u1", download := dl0, filter := some filterMiss }

/-- Second show of the scenario, entirely unproblematic. -/
def showAfter : ShowConfiguration := { feed_url := "u2", download := dl0, filter := none }

/-- Environment for the thumbnail-failure scenario: one accepted entry, and
the og:image extraction finds nothing on the page. -/
def envThumb : Env :=
  { envOk with feed := fun _ => [[("link", "L"), ("published", "p")]],
               extractImage := fun _ => none }

/-- Environment for the processing-order scenario: the feed delivers entry a
then entry b (newest first). -/
def envOrder : Env :=
  { envOk with feed := fun _ => [[("link", "a")], [("link", "b")]] }

/-- Starting state for the processing-order scenario: both links already in
history, so both entries are examined and skipped. -/
def stOrder : PState := { stEmpty with hist := ["a", "b"] }

/-- The state the processing-order scenario ends in. -/
def stOrderEnd : PState := { stOrder with processed := [[("link", "b")], [("link", "a")]] }

section Theorems

/- Helper lemmas. -/

theorem mem_add_to_history {hist : List String} {url a : String} :
    a ∈ add_to_history hist url ↔ a ∈ hist ∨ a = url := by
  unfold add_to_history
  split
  next h =>
    constructor
    · exact Or.inl
    · rintro (h1 | rfl)
      · exact h1
      · exact List.elem_iff.mp h
  next h =>
    simp [List.mem_append]

/-- C1: an entry processed by download_episode has its link recorded in
history exactly when the downloader subprocess exits with code 0; on a
non-zero exit the history is left unchanged, and on success the link is
present afterwards. Stated for every state in which the filename generation
of line 90 succeeds (a failure there raises before the subprocess runs). -/
theorem downloadEpisode_history_iff_exit_zero
    (env : Env) (download : DownloadConfiguration) (st : PState) (url fn : String)
    (hfn : find_filename env download st.files = some fn) :
    ∃ st1 : PState,
      download_episode env download st (some url) = .ok st1
      ∧ (url ∈ st1.hist ↔
          env.runDownloader url (download.folder ++ "/" ++ fn ++ ".%(ext)s") = 0 ∨ url ∈ st.hist)
      ∧ (env.runDownloader url (download.folder ++ "/" ++ fn ++ ".%(ext)s") ≠ 0 →
          st1.hist = st.hist) := by
  have hstep : download_episode env download st (some url) =
      (if env.runDownloader url (download.folder ++ "/" ++ fn ++ ".%(ext)s") = 0 then
        RunResult.ok { st with invoked := st.invoked ++ [url],
                               hist := add_to_history st.hist url,
                               files := st.files ++ [(download.folder, fn ++ ".mp4")] }
      else RunResult.ok { st with invoked := st.invoked ++ [url] }) := by
    unfold download_episode
    rw [hfn]
  rw [hstep]
  split
  next h => exact ⟨_, rfl, by simp [mem_add_to_history, h], fun hc => absurd h hc⟩
  next h => exact ⟨_, rfl, by simp [h], fun _ => rfl⟩

/-- Witness for C1 at a concrete input: empty folder, exit code 0. -/
theorem downloadEpisode_history_iff_exit_zero_witness :
    ∃ st1 : PState,
      download_episode envOk dl0 stEmpty (some "L") = .ok st1
      ∧ ("L" ∈ st1.hist ↔
          envOk.runDownloader "L" (dl0.folder ++ "/" ++ ("A" ++ " S" ++ "24" ++ "E01") ++ ".%(ext)s") = 0
          ∨ "L" ∈ stEmpty.hist)
      ∧ (envOk.runDownloader "L" (dl0.folder ++ "/" ++ ("A" ++ " S" ++ "24" ++ "E01") ++ ".%(ext)s") ≠ 0 →
          st1.hist = stEmpty.hist) :=
  downloadEpisode_history_iff_exit_zero envOk dl0 stEmpty "L" ("A" ++ " S" ++ "24" ++ "E01")
    (by decide)

/-- C2: an entry whose link is already in the history store is rejected by
should_download regardless of every other entry field, of the filter
configuration, and of every oracle: the dedup check of lines 31-33 comes
first and short-circuits. -/
theorem shouldDownload_in_history_false
    (env : Env) (hist : List String) (entry : Entry) (show_config : ShowConfiguration)
    (l : String) (hl : entryGet entry "link" = some l) (hmem : l ∈ hist) :
    should_download env hist entry show_config = some false := by
  unfold should_download
  rw [hl]
  have : is_in_history hist (some l) = true := by
    unfold is_in_history
    exact List.elem_iff.mpr hmem
  rw [this]
  rfl

/-- Witness for C2 at a concrete input, with a filter block present. -/
theorem shouldDownload_in_history_false_witness :
    should_download envOk ["L"] entryL showMiss = some false :=
  shouldDownload_in_history_false envOk ["L"] entryL showMiss "L" (by decide) (by decide)

/-- C4: with no filter block, should_download is entirely independent of the
oracles (so neither the regex, nor the minimum-date, nor the
release-readiness check of is_episode_released is evaluated), and an entry
that passes the dedup check is accepted immediately. -/
theorem shouldDownload_no_filter_accepts
    (env env2 : Env) (hist : List String) (entry : Entry) (show_config : ShowConfiguration)
    (hf : show_config.filter = none) :
    should_download env hist entry show_config = should_download env2 hist entry show_config
    ∧ (is_in_history hist (entryGet entry "link") = false →
        should_download env hist entry show_config = some true) := by
  unfold should_download
  rw [hf]
  refine ⟨rfl, fun h => ?_⟩
  rw [h]
  rfl

/-- Witness for C4 at a concrete input: a fresh link, two very different
environments, acceptance. -/
theorem shouldDownload_no_filter_accepts_witness :
    should_download envOk [] entryL show0 = should_download envThumb [] entryL show0
    ∧ should_download envOk [] entryL show0 = some true :=
  ⟨(shouldDownload_no_filter_accepts envOk envThumb [] entryL show0 (by decide)).1,
   (shouldDownload_no_filter_accepts envOk envThumb [] entryL show0 (by decide)).2 (by decide)⟩

/-- Counterexample to C10 as stated: with the filter block present and both
regex and regex_field set, and the named field missing from the entry,
should_download still returns the boolean False (and raises nothing) when
the link of the entry is already in history, because the dedup check
short-circuits before the regex is applied. -/
theorem shouldDownload_missing_field_counterexample :
    should_download envOk ["L"] entryL showMiss = some false := by decide

/-- C10 as amended: when additionally the link is not in history, the regex
step applies re.search to a missing value and should_download raises (none)
instead of returning a boolean, so it is not total. -/
theorem shouldDownload_missing_field_raises
    (env : Env) (hist : List String) (entry : Entry) (show_config : ShowConfiguration)
    (f : ShowFilter)
    (hnin : is_in_history hist (entryGet entry "link") = false)
    (hf : show_config.filter = some f)
    (hr : truthyS f.regex = true) (hrf : truthyS f.regex_field = true)
    (hmiss : entryGet entry (f.regex_field.getD "") = none) :
    should_download env hist entry show_config = none := by
  unfold should_download
  rw [hnin, hf]
  show regexStep env entry f = none
  unfold regexStep
  rw [hr, hrf]
  show (match entryGet entry (f.regex_field.getD "") with
        | none => none
        | some text =>
          if env.regexSearch (f.regex.getD "") text then minDateStep env entry f
          else some false) = none
  rw [hmiss]

/-- Witness for the amended C10 at a concrete input: entry without the named
field and with a link not in history. -/
theorem shouldDownload_missing_field_raises_witness :
    should_download envOk [] entryNoLink showMiss = none :=
  shouldDownload_missing_field_raises envOk [] entryNoLink showMiss filterMiss
    (by decide) (by decide) (by decide) (by decide) (by decide)

/-- C3, against the code: check_all_shows has no exception handler, so the
error raised while the first show is processed (its filter names a field the
entry lacks) escapes from check_all_shows, and the second show is never
started. This contradicts the claim that per-show faults are isolated and
that no error propagates out of check_all_shows. -/
theorem checkAllShows_fault_not_isolated :
    check_all_shows envShows stEmpty [showBad, showAfter] =
      .exn { hist := [], files := [], processed := [[("link", "L1")]], invoked := [],
             showsStarted := ["u1"] } := by decide

/-- C7, against the code: save_thumb is unguarded, so when the og:image
extraction fails the exception escapes from check_show; the final state shows
that no nfo was written, no file was created at all, and the downloader was
never invoked for the accepted entry, contradicting the claim that the
metadata write and the media download attempt still take place. -/
theorem saveThumb_failure_aborts_acquisition :
    check_show envThumb stEmpty show0 =
      .exn { hist := [], files := [], processed := [[("link", "L"), ("published", "p")]],
             invoked := [], showsStarted := [] } := by decide

theorem saveThumb_state_processed (env : Env) (d : DownloadConfiguration) (st : PState)
    (e : Entry) : (save_thumb env d st e).state.processed = st.processed := by
  unfold save_thumb
  repeat' split
  all_goals rfl

theorem writeNfo_state_processed (env : Env) (d : DownloadConfiguration) (st : PState)
    (e : Entry) : (write_nfo env d st e).state.processed = st.processed := by
  unfold write_nfo
  repeat' split
  all_goals rfl

theorem downloadEpisode_state_processed (env : Env) (d : DownloadConfiguration) (st : PState)
    (url? : Option String) :
    (download_episode env d st url?).state.processed = st.processed := by
  unfold download_episode
  repeat' split
  all_goals try rfl
  all_goals dsimp only
  all_goals split
  all_goals rfl

theorem processEntryAux_state_processed (env : Env) (showc : ShowConfiguration)
    (st0 : PState) (e : Entry) :
    (process_entry_aux env showc st0 e).state.processed = st0.processed := by
  unfold process_entry_aux
  split
  · rfl
  · rfl
  · split
    · rename_i st1 heq
      have h1 := saveThumb_state_processed env showc.download st0 e
      rw [heq] at h1
      exact h1
    · rename_i st1 heq
      have h1 := saveThumb_state_processed env showc.download st0 e
      rw [heq] at h1
      have h1x : st1.processed = st0.processed := h1
      split
      · rename_i st2 heq2
        have h2 := writeNfo_state_processed env showc.download st1 e
        rw [heq2] at h2
        have h2x : st2.processed = st1.processed := h2
        exact h2x.trans h1x
      · rename_i st2 heq2
        have h2 := writeNfo_state_processed env showc.download st1 e
        rw [heq2] at h2
        have h2x : st2.processed = st1.processed := h2
        exact (downloadEpisode_state_processed env showc.download st2 (entryGet e "link")).trans
          (h2x.trans h1x)

theorem processEntry_state_processed (env : Env) (showc : ShowConfiguration)
    (st : PState) (e : Entry) :
    (process_entry env showc st e).state.processed = st.processed ++ [e] := by
  unfold process_entry
  exact processEntryAux_state_processed env showc _ e

theorem runEntries_processed (env : Env) (showc : ShowConfiguration) :
    ∀ (es : List Entry) (st st1 : PState),
      run_entries env showc st es = .ok st1 → st1.processed = st.processed ++ es := by
  intro es
  induction es with
  | nil =>
    intro st st1 h
    unfold run_entries at h
    cases h
    simp
  | cons e rest ih =>
    intro st st1 h
    unfold run_entries at h
    cases hpe : process_entry env showc st e with
    | exn st2 => rw [hpe] at h; cases h
    | ok st2 =>
      rw [hpe] at h
      have h2 := processEntry_state_processed env showc st e
      rw [hpe] at h2
      have h2x : st2.processed = st.processed ++ [e] := h2
      rw [ih st2 st1 h, h2x]
      simp

/-- C8: check_show examines the delivered feed entries in exactly the
reverse of the delivered order (the in-place reverse of line 102), so a
newest-first feed is processed oldest-first; stated for every run of
check_show that completes normally, via the processed trace. -/
theorem checkShow_processes_in_reverse (env : Env) (st st1 : PState)
    (showc : ShowConfiguration) (h : check_show env st showc = .ok st1) :
    st1.processed = st.processed ++ (env.feed showc.feed_url).reverse :=
  runEntries_processed env showc (env.feed showc.feed_url).reverse st st1 h

/-- Witness for C8 at a concrete input: a feed delivering entry a then entry
b, both already in history; the trace ends up reversed. -/
theorem checkShow_processes_in_reverse_witness :
    stOrderEnd.processed = stOrder.processed ++ (envOrder.feed show0.feed_url).reverse :=
  checkShow_processes_in_reverse envOrder stOrder stOrderEnd show0 (by decide)

/- String-append helpers for the E01 formatting. -/

theorem string_eq_of_data {a b : String} (h : a.data = b.data) : a = b := by
  cases a
  cases b
  exact congrArg String.mk h

theorem append_E_pad1 (x : String) : x ++ "E" ++ pad2 1 = x ++ "E01" := by
  rw [String.append_assoc]
  rw [show ("E" : String) ++ pad2 1 = "E01" from by decide]

/-- C6: find_filename returns the episode-one name of the current season
token both when no matching media file exists (the else branch of line 82)
and when the lexicographically last matching filename parses to a season
token different from the current one (lines 75-78 with a fresh count). -/
theorem findFilename_resets_to_episode_one (pfx season : String) (names : List String) :
    ((episodeFiles pfx names).getLast? = none →
      find_filename_core pfx season names = some (pfx ++ " S" ++ season ++ "E01"))
    ∧ (∀ newest g2 g3, (episodeFiles pfx names).getLast? = some newest →
        parseSE true (splitextStem newest) = some (g2, g3) → g2 ≠ season →
        find_filename_core pfx season names = some (pfx ++ " S" ++ season ++ "E01")) := by
  constructor
  · intro h
    unfold find_filename_core
    rw [h]
  · intro newest g2 g3 hl hp hne
    have hbe : (season == g2) = false := by
      rw [beq_eq_false_iff_ne]
      exact fun hcontra => hne (hcontra.symm)
    unfold find_filename_core
    simp only [hl, hp, hbe, Bool.false_eq_true, if_false]
    rw [show digitsToNat ("00" : String).data + 1 = 1 from by decide]
    rw [append_E_pad1]

/-- Witness for C6 at concrete inputs: an empty folder, and a folder whose
only matching file carries season token 23 while the current season is 24. -/
theorem findFilename_resets_to_episode_one_witness :
    find_filename_core "A" "24" [] = some ("A" ++ " S" ++ "24" ++ "E01")
    ∧ find_filename_core "A" "24" ["A S23E07.mp4"] = some ("A" ++ " S" ++ "24" ++ "E01") :=
  ⟨(findFilename_resets_to_episode_one "A" "24" []).1 (by decide),
   (findFilename_resets_to_episode_one "A" "24" ["A S23E07.mp4"]).2 "A S23E07.mp4" "23" "07"
     (by decide) (by decide) (by decide)⟩

/-- C9: when the lexicographically last matching media filename does not
match the episode pattern of line 74, find_filename raises (none) through
the .group call of line 75 instead of returning a guessed filename. -/
theorem findFilename_malformed_raises (pfx season : String) (names : List String)
    (newest : String)
    (hl : (episodeFiles pfx names).getLast? = some newest)
    (hp : parseSE true (splitextStem newest) = none) :
    find_filename_core pfx season names = none := by
  unfold find_filename_core
  simp only [hl, hp]

/-- Witness for C9 at a concrete input: the only matching file has no digits
after its S. -/
theorem findFilename_malformed_raises_witness :
    find_filename_core "A" "24" ["A S.mp4"] = none :=
  findFilename_malformed_raises "A" "24" ["A S.mp4"] "A S.mp4" (by decide) (by decide)

/- Order theory for the Python string comparison. -/

theorem charLtB_iff {a b : Char} : charLtB a b = true ↔ a.toNat < b.toNat := by
  unfold charLtB
  exact decide_eq_true_iff

theorem charLtB_eq_false_iff {a b : Char} : charLtB a b = false ↔ ¬ a.toNat < b.toNat := by
  rw [← Bool.not_eq_true, charLtB_iff]

theorem charLtB_self (a : Char) : charLtB a a = false := by
  rw [charLtB_eq_false_iff]
  omega

theorem strLtChars_irrefl : ∀ l : List Char, strLtChars l l = false
  | [] => rfl
  | a :: as => by
    simp [strLtChars, charLtB_self a, strLtChars_irrefl as]

theorem strLtChars_asymm : ∀ (a b : List Char), strLtChars a b = true → strLtChars b a = false := by
  intro a
  induction a with
  | nil =>
    intro b h
    cases b with
    | nil => simp [strLtChars] at h
    | cons y bs => rfl
  | cons x as ih =>
    intro b h
    cases b with
    | nil => simp [strLtChars] at h
    | cons y bs =>
      cases hxy : charLtB x y with
      | true =>
        have hxy2 := charLtB_iff.mp hxy
        have hyx : charLtB y x = false := by
          rw [charLtB_eq_false_iff]
          omega
        simp [strLtChars, hyx, hxy]
      | false =>
        cases hyx : charLtB y x with
        | true => simp [strLtChars, hxy, hyx] at h
        | false =>
          simp [strLtChars, hxy, hyx] at h ⊢
          exact ih bs h

theorem strLtChars_trans :
    ∀ (a b c : List Char), strLtChars a b = true → strLtChars b c = true →
      strLtChars a c = true := by
  intro a
  induction a with
  | nil =>
    intro b c hab hbc
    cases c with
    | cons _ _ => rfl
    | nil =>
      cases b with
      | nil => simp [strLtChars] at hab
      | cons y bs => simp [strLtChars] at hbc
  | cons x as ih =>
    intro b c hab hbc
    cases b with
    | nil => simp [strLtChars] at hab
    | cons y bs =>
      cases c with
      | nil => simp [strLtChars] at hbc
      | cons z cs =>
        cases hxy : charLtB x y with
        | true =>
          have hxy2 := charLtB_iff.mp hxy
          cases hyz : charLtB y z with
          | true =>
            have hyz2 := charLtB_iff.mp hyz
            have hxz : charLtB x z = true := by
              rw [charLtB_iff]
              omega
            simp [strLtChars, hxz]
          | false =>
            cases hzy : charLtB z y with
            | true => simp [strLtChars, hyz, hzy] at hbc
            | false =>
              have hyz2 := charLtB_eq_false_iff.mp hyz
              have hzy2 := charLtB_eq_false_iff.mp hzy
              have hxz : charLtB x z = true := by
                rw [charLtB_iff]
                omega
              simp [strLtChars, hxz]
        | false =>
          cases hyx : charLtB y x with
          | true => simp [strLtChars, hxy, hyx] at hab
          | false =>
            have hxy2 := charLtB_eq_false_iff.mp hxy
            have hyx2 := charLtB_eq_false_iff.mp hyx
            simp [strLtChars, hxy, hyx] at hab
            cases hyz : charLtB y z with
            | true =>
              have hyz2 := charLtB_iff.mp hyz
              have hxz : charLtB x z = true := by
                rw [charLtB_iff]
                omega
              simp [strLtChars, hxz]
            | false =>
              cases hzy : charLtB z y with
              | true => simp [strLtChars, hyz, hzy] at hbc
              | false =>
                have hyz2 := charLtB_eq_false_iff.mp hyz
                have hzy2 := charLtB_eq_false_iff.mp hzy
                simp [strLtChars, hyz, hzy] at hbc
                have hxz : charLtB x z = false := by
                  rw [charLtB_eq_false_iff]
                  omega
                have hzx : charLtB z x = false := by
                  rw [charLtB_eq_false_iff]
                  omega
                simp [strLtChars, hxz, hzx]
                exact ih bs cs hab hbc

theorem strLtChars_connex :
    ∀ (a b : List Char), strLtChars a b = false → strLtChars b a = false → a = b := by
  intro a
  induction a with
  | nil =>
    intro b h1 _
    cases b with
    | nil => rfl
    | cons y bs => simp [strLtChars] at h1
  | cons x as ih =>
    intro b h1 h2
    cases b with
    | nil => simp [strLtChars] at h2
    | cons y bs =>
      cases hxy : charLtB x y with
      | true => simp [strLtChars, hxy] at h1
      | false =>
        cases hyx : charLtB y x with
        | true => simp [strLtChars, hyx] at h2
        | false =>
          simp [strLtChars, hxy, hyx] at h1 h2
          have hxy2 := charLtB_eq_false_iff.mp hxy
          have hyx2 := charLtB_eq_false_iff.mp hyx
          have hx3 : x.toNat = y.toNat := by omega
          have hx : x = y := Char.ext (UInt32.ext hx3)
          rw [hx, ih bs h1 h2]

theorem pyLe_iff {a b : String} : pyLe a b ↔ strLtChars b.data a.data = false := by
  unfold pyLe pyLeB
  cases strLtChars b.data a.data <;> simp

theorem pyLe_refl (a : String) : pyLe a a := by
  rw [pyLe_iff]
  exact strLtChars_irrefl a.data

instance : IsTotal String pyLe where
  total a b := by
    rw [pyLe_iff, pyLe_iff]
    cases h : strLtChars b.data a.data with
    | false => exact Or.inl rfl
    | true => exact Or.inr (strLtChars_asymm b.data a.data h)

instance : IsTrans String pyLe where
  trans a b c hab hbc := by
    rw [pyLe_iff] at hab hbc ⊢
    by_contra hne
    have hca : strLtChars c.data a.data = true := by
      cases h : strLtChars c.data a.data with
      | false => exact absurd h hne
      | true => rfl
    cases hbc2 : strLtChars b.data c.data with
    | true =>
      have hba := strLtChars_trans b.data c.data a.data hbc2 hca
      rw [hba] at hab
      exact Bool.noConfusion hab
    | false =>
      have hbc3 := strLtChars_connex b.data c.data hbc2 hbc
      rw [← hbc3] at hca
      rw [hca] at hab
      exact Bool.noConfusion hab

theorem mem_of_getLast?_eq {α : Type} : ∀ (l : List α) (a : α), l.getLast? = some a → a ∈ l
  | [], _, h => by simp at h
  | [x], a, h => by
    simp at h
    simp [h]
  | x :: y :: ys, a, h => by
    rw [List.getLast?_cons_cons] at h
    exact List.mem_cons_of_mem x (mem_of_getLast?_eq (y :: ys) a h)

theorem pyLe_getLast_of_sorted :
    ∀ {l : List String}, l.Sorted pyLe → ∀ {a b : String}, a ∈ l → l.getLast? = some b →
      pyLe a b := by
  intro l
  induction l with
  | nil =>
    intro _ a b ha
    exact absurd ha (List.not_mem_nil a)
  | cons x xs ih =>
    intro hs a b ha hl
    rw [List.sorted_cons] at hs
    cases xs with
    | nil =>
      have hb : x = b := by simpa using hl
      have ha2 : a = x := by simpa using ha
      rw [ha2, ← hb]
      exact pyLe_refl x
    | cons y ys =>
      rw [List.getLast?_cons_cons] at hl
      rcases List.mem_cons.mp ha with rfl | hmem
      · exact hs.1 b (mem_of_getLast?_eq (y :: ys) b hl)
      · exact ih hs.2 hmem hl

theorem strLtChars_append_left :
    ∀ (p l1 l2 : List Char), strLtChars (p ++ l1) (p ++ l2) = strLtChars l1 l2 := by
  intro p
  induction p with
  | nil => intro l1 l2; rfl
  | cons c cs ih =>
    intro l1 l2
    simp [strLtChars, charLtB_self c, ih]

set_option maxRecDepth 20000 in
set_option maxHeartbeats 4000000 in
theorem pad2_tail_lt : ∀ e1 e2 : Fin 100, (e1 : Nat) < (e2 : Nat) →
    strLtChars ((pad2 e1).data ++ ['.', 'm', 'p', '4'])
      ((pad2 e2).data ++ ['.', 'm', 'p', '4']) = true := by
  decide

set_option maxRecDepth 20000 in
set_option maxHeartbeats 1000000 in
theorem pad2_props : ∀ e : Fin 100, (pad2 e).data ≠ []
    ∧ ((pad2 e).data.all Char.isDigit) = true
    ∧ digitsToNat (pad2 e).data = (e : Nat) := by
  decide

theorem pad2_props' (m : Nat) (hm : m ≤ 99) :
    (pad2 m).data ≠ [] ∧ (∀ c ∈ (pad2 m).data, c.isDigit = true)
    ∧ digitsToNat (pad2 m).data = m := by
  have h := pad2_props ⟨m, by omega⟩
  refine ⟨h.1, ?_, h.2.2⟩
  intro c hc
  exact List.all_eq_true.mp h.2.1 c hc

theorem canonName_data (pfx season : String) (e : Nat) :
    (canonName pfx season e).data
      = (pfx ++ " S" ++ season ++ "E").data ++ ((pad2 e).data ++ ['.', 'm', 'p', '4']) := by
  unfold canonName
  rw [String.data_append, String.data_append]
  rw [show (".mp4" : String).data = ['.', 'm', 'p', '4'] from rfl]
  rw [List.append_assoc]

theorem canonName_lt (pfx season : String) {e1 e2 : Nat} (h1 : e1 ≤ 99) (h2 : e2 ≤ 99)
    (hlt : e1 < e2) :
    strLtChars (canonName pfx season e1).data (canonName pfx season e2).data = true := by
  rw [canonName_data, canonName_data, strLtChars_append_left]
  exact pad2_tail_lt ⟨e1, by omega⟩ ⟨e2, by omega⟩ hlt

theorem canonName_le_reflect (pfx season : String) {e1 e2 : Nat} (h1 : e1 ≤ 99) (h2 : e2 ≤ 99)
    (h : pyLe (canonName pfx season e1) (canonName pfx season e2)) : e1 ≤ e2 := by
  by_contra hgt
  push_neg at hgt
  rw [pyLe_iff] at h
  rw [canonName_lt pfx season h2 h1 hgt] at h
  exact Bool.noConfusion h

/- The canonical name passes the media filter. -/

theorem containsSubAux_of_isPrefixOf {n h : List Char} (hp : n <+: h) : containsSubAux n h = true := by
  cases h with
  | nil =>
    have hn : n = [] := List.prefix_nil.mp hp
    simp [containsSubAux, hn]
  | cons c t =>
    unfold containsSubAux
    rw [List.isPrefixOf_iff_prefix.mpr hp]
    rfl

theorem containsSubAux_append_left (n : List Char) :
    ∀ (s t : List Char), containsSubAux n t = true → containsSubAux n (s ++ t) = true := by
  intro s
  induction s with
  | nil => intro t h; simpa using h
  | cons c cs ih =>
    intro t h
    rw [List.cons_append]
    unfold containsSubAux
    rw [ih t h]
    simp

theorem mediaFilter_canonName (pfx season : String) (e : Nat) :
    mediaFilter pfx (canonName pfx season e) = true := by
  unfold mediaFilter containsSub
  rw [Bool.and_eq_true]
  constructor
  · apply containsSubAux_of_isPrefixOf
    have p1 : pfx.data <+: (pfx ++ " S").data := by
      rw [String.data_append]
      exact List.prefix_append _ _
    have p2 : pfx.data <+: (pfx ++ " S" ++ season).data := by
      rw [String.data_append]
      exact p1.trans (List.prefix_append _ _)
    have p3 : pfx.data <+: (pfx ++ " S" ++ season ++ "E").data := by
      rw [String.data_append]
      exact p2.trans (List.prefix_append _ _)
    have p4 : pfx.data <+: (pfx ++ " S" ++ season ++ "E" ++ pad2 e).data := by
      rw [String.data_append]
      exact p3.trans (List.prefix_append _ _)
    show pfx.data <+: (canonName pfx season e).data
    unfold canonName
    rw [String.data_append]
    exact p4.trans (List.prefix_append _ _)
  · rw [canonName_data]
    apply containsSubAux_append_left
    apply containsSubAux_append_left
    decide

/- splitext on a canonical name. -/

theorem string_mk_data (s : String) : String.mk s.data = s := rfl

theorem splitextStem_append_mp4 (x : String) (hc : ∃ c ∈ x.data, (c == '.') = false) :
    splitextStem (x ++ ".mp4") = x := by
  have hall : x.data.all (fun c => c == '.') = false := by
    obtain ⟨c, hc1, hc2⟩ := hc
    rw [List.all_eq_false]
    exact ⟨c, hc1, by simp [hc2]⟩
  have hdata : (x ++ ".mp4").data.reverse = '4' :: 'p' :: 'm' :: '.' :: x.data.reverse := by
    rw [String.data_append]
    rw [show (".mp4" : String).data = ['.', 'm', 'p', '4'] from rfl]
    rw [List.reverse_append]
    rfl
  unfold splitextStem
  rw [hdata]
  simp only [show rstripExt ('4' :: 'p' :: 'm' :: '.' :: x.data.reverse) = some x.data.reverse
      from by simp [rstripExt],
    List.reverse_reverse, hall, Bool.false_eq_true, if_false]

/- The episode regex on a canonical stem. -/

theorem digit_ne_S {c : Char} (h : c.isDigit = true) : (c == 'S') = false := by
  cases hq : c == 'S' with
  | false => rfl
  | true =>
    have hc : c = 'S' := eq_of_beq hq
    rw [hc] at h
    exact absurd h (by decide)

theorem takeWhile_all_append (p : Char → Bool) :
    ∀ (d : List Char) (x : Char) (r : List Char), (∀ c ∈ d, p c = true) → p x = false →
      (d ++ x :: r).takeWhile p = d ∧ (d ++ x :: r).dropWhile p = x :: r := by
  intro d
  induction d with
  | nil =>
    intro x r _ hx
    constructor
    · simp [List.takeWhile_cons, hx]
    · simp [List.dropWhile_cons, hx]
  | cons c cs ih =>
    intro x r hall hx
    have hc : p c = true := hall c (by simp)
    have hrec := ih x r (fun a ha => hall a (by simp [ha])) hx
    constructor
    · rw [List.cons_append, List.takeWhile_cons, hc]
      simp [hrec.1]
    · rw [List.cons_append, List.dropWhile_cons, hc]
      simp [hrec.2]

theorem takeWhile_of_all (p : Char → Bool) :
    ∀ (l : List Char), (∀ c ∈ l, p c = true) → l.takeWhile p = l := by
  intro l
  induction l with
  | nil => intro _; rfl
  | cons c cs ih =>
    intro h
    rw [List.takeWhile_cons, h c (by simp)]
    simp [ih (fun a ha => h a (by simp [ha]))]

theorem seAfter_canon (sd pd : List Char) (hs : sd ≠ []) (hsd : ∀ c ∈ sd, c.isDigit = true)
    (hp : pd ≠ []) (hpd : ∀ c ∈ pd, c.isDigit = true) :
    seAfter (sd ++ 'E' :: pd) = some (sd, pd) := by
  have h1 := takeWhile_all_append Char.isDigit sd 'E' pd hsd (by decide)
  have hse : sd.isEmpty = false := by
    cases sd with
    | nil => exact absurd rfl hs
    | cons a b => rfl
  have h2 := takeWhile_of_all Char.isDigit pd hpd
  have hpe : pd.isEmpty = false := by
    cases pd with
    | nil => exact absurd rfl hp
    | cons a b => rfl
  unfold seAfter
  simp only [h1.1, h1.2, hse, h2, hpe, Bool.false_eq_true, if_false, beq_self_eq_true, if_true]

theorem seCandidates_cons (req : Bool) (prev : Option Char) (c : Char) (rest : List Char) :
    seCandidates req prev (c :: rest)
      = if c == 'S' && (!req || prev == some ' ') then
          match seAfter rest with
          | some g => g :: seCandidates req (some c) rest
          | none => seCandidates req (some c) rest
        else seCandidates req (some c) rest := rfl

theorem seCandidates_append (req : Bool) :
    ∀ (xs : List Char) (prev : Option Char) (ys : List Char),
      ∃ cs, seCandidates req prev (xs ++ ys)
        = cs ++ seCandidates req ((xs.getLast?).or prev) ys := by
  intro xs
  induction xs with
  | nil => intro prev ys; exact ⟨[], rfl⟩
  | cons c xs ih =>
    intro prev ys
    obtain ⟨cs, hcs⟩ := ih (some c) ys
    have hlast : (((c :: xs).getLast?).or prev) = ((xs.getLast?).or (some c)) := by
      cases xs with
      | nil => rfl
      | cons d ds =>
        rw [List.getLast?_cons_cons]
        obtain ⟨b, hb⟩ : ∃ b, (d :: ds).getLast? = some b :=
          ⟨_, List.getLast?_eq_getLast _ (by simp)⟩
        rw [hb]
        rfl
    rw [List.cons_append]
    by_cases hcond : (c == 'S' && (!req || prev == some ' ')) = true
    · cases hse : seAfter (xs ++ ys) with
      | some g =>
        refine ⟨g :: cs, ?_⟩
        rw [seCandidates_cons, if_pos hcond]
        simp only [hse]
        rw [hcs, hlast]
        rfl
      | none =>
        refine ⟨cs, ?_⟩
        rw [seCandidates_cons, if_pos hcond]
        simp only [hse]
        rw [hcs, hlast]
    · refine ⟨cs, ?_⟩
      rw [seCandidates_cons, if_neg hcond]
      rw [hcs, hlast]

theorem seCandidates_no_S (req : Bool) :
    ∀ (l : List Char) (prev : Option Char), (∀ c ∈ l, (c == 'S') = false) →
      seCandidates req prev l = [] := by
  intro l
  induction l with
  | nil => intro prev _; rfl
  | cons c cs ih =>
    intro prev h
    have hc : (c == 'S') = false := h c (by simp)
    rw [seCandidates_cons, hc]
    simp only [Bool.false_and, Bool.false_eq_true, if_false]
    exact ih (some c) (fun d hd => h d (List.mem_cons_of_mem c hd))

theorem parseSE_canon (pfx season : String) (pd : List Char)
    (hs : season.data ≠ []) (hsd : ∀ c ∈ season.data, c.isDigit = true)
    (hp : pd ≠ []) (hpd : ∀ c ∈ pd, c.isDigit = true) :
    parseSE true (pfx ++ " S" ++ season ++ "E" ++ String.mk pd)
      = some (season, String.mk pd) := by
  have hdata : (pfx ++ " S" ++ season ++ "E" ++ String.mk pd).data
      = (pfx.data ++ [' ']) ++ ('S' :: (season.data ++ 'E' :: pd)) := by
    rw [String.data_append, String.data_append, String.data_append, String.data_append]
    rw [show (" S" : String).data = [' ', 'S'] from rfl,
      show ("E" : String).data = ['E'] from rfl,
      show (String.mk pd).data = pd from rfl]
    simp [List.append_assoc]
  have hnoS : ∀ c ∈ season.data ++ 'E' :: pd, (c == 'S') = false := by
    intro c hc
    rcases List.mem_append.mp hc with h1 | h2
    · exact digit_ne_S (hsd c h1)
    · rcases List.mem_cons.mp h2 with rfl | h3
      · rfl
      · exact digit_ne_S (hpd c h3)
  have hrest : seCandidates true (some ' ') ('S' :: (season.data ++ 'E' :: pd))
      = [(season.data, pd)] := by
    rw [seCandidates_cons,
      if_pos (by decide : (('S' == 'S') && (!true || (some ' ' : Option Char) == some ' ')) = true)]
    simp only [seAfter_canon season.data pd hs hsd hp hpd]
    rw [seCandidates_no_S true (season.data ++ 'E' :: pd) (some 'S') hnoS]
  unfold parseSE
  rw [hdata]
  obtain ⟨cs, hcs⟩ :=
    seCandidates_append true (pfx.data ++ [' ']) none ('S' :: (season.data ++ 'E' :: pd))
  rw [hcs]
  rw [show (((pfx.data ++ [' ']).getLast?).or none) = some ' ' from by
    rw [List.getLast?_concat]
    rfl]
  rw [hrest, List.getLast?_concat]
  rfl

/- The sequencer step and the monotonicity of repeated calls. -/

theorem mem_episodeFiles {pfx : String} {names : List String} {n : String} :
    n ∈ episodeFiles pfx names ↔ n ∈ names ∧ mediaFilter pfx n = true := by
  unfold episodeFiles
  rw [List.mem_filter]
  constructor
  · rintro ⟨h1, h2⟩
    exact ⟨(List.perm_insertionSort pyLe names).mem_iff.mp h1, h2⟩
  · rintro ⟨h1, h2⟩
    exact ⟨(List.perm_insertionSort pyLe names).mem_iff.mpr h1, h2⟩

theorem episodeFiles_sorted (pfx : String) (names : List String) :
    (episodeFiles pfx names).Sorted pyLe :=
  List.Pairwise.filter _ (List.sorted_insertionSort pyLe names)

theorem sequencer_step (pfx season : String) (names : List String) (m : Nat)
    (hs : season.data ≠ []) (hsd : ∀ c ∈ season.data, c.isDigit = true)
    (hinv : Inv pfx season names m) (hm : m + 1 ≤ 99) :
    next_episode_number pfx season names = some (m + 1)
    ∧ find_filename_core pfx season names
        = some (pfx ++ " S" ++ season ++ "E" ++ pad2 (m + 1))
    ∧ Inv pfx season (names ++ [canonName pfx season (m + 1)]) (m + 1) := by
  obtain ⟨hall, hmax⟩ := hinv
  rcases hmax with hm0 | hmem
  · subst hm0
    have hnil : episodeFiles pfx names = [] := by
      unfold episodeFiles
      rw [List.filter_eq_nil_iff]
      intro a ha hpa
      obtain ⟨e, he1, he2, he3⟩ :=
        hall a ((List.perm_insertionSort pyLe names).mem_iff.mp ha) hpa
      rw [List.mem_range] at he1
      omega
    refine ⟨?_, ?_, ?_, ?_⟩
    · unfold next_episode_number
      rw [hnil]
      rfl
    · unfold find_filename_core
      rw [hnil]
      show some (pfx ++ " S" ++ season ++ "E01")
        = some (pfx ++ " S" ++ season ++ "E" ++ pad2 (0 + 1))
      rw [Nat.zero_add, append_E_pad1]
    · intro n hn hfn
      rcases List.mem_append.mp hn with h1 | h2
      · obtain ⟨e, he1, he2, he3⟩ := hall n h1 hfn
        rw [List.mem_range] at he1
        exact False.elim (by omega)
      · have hn2 : n = canonName pfx season (0 + 1) := by simpa using h2
        exact ⟨0 + 1, by rw [List.mem_range]; omega, by omega, hn2⟩
    · exact Or.inr (by simp)
  · have hmF : canonName pfx season m ∈ episodeFiles pfx names :=
      mem_episodeFiles.mpr ⟨hmem, mediaFilter_canonName pfx season m⟩
    obtain ⟨last, hlast⟩ : ∃ b, (episodeFiles pfx names).getLast? = some b :=
      ⟨_, List.getLast?_eq_getLast _ (List.ne_nil_of_mem hmF)⟩
    have hlmem : last ∈ episodeFiles pfx names :=
      mem_of_getLast?_eq _ _ hlast
    obtain ⟨hlnames, hlfilter⟩ := mem_episodeFiles.mp hlmem
    obtain ⟨eL, heL1, heL2, heL3⟩ := hall last hlnames hlfilter
    rw [List.mem_range] at heL1
    have hle : pyLe (canonName pfx season m) last :=
      pyLe_getLast_of_sorted (episodeFiles_sorted pfx names) hmF hlast
    rw [heL3] at hle
    have hmeL : m ≤ eL := canonName_le_reflect pfx season (by omega) (by omega) hle
    have heLm : eL = m := by omega
    rw [heLm] at heL3
    have hstem : splitextStem last = pfx ++ " S" ++ season ++ "E" ++ pad2 m := by
      rw [heL3]
      refine splitextStem_append_mp4 (pfx ++ " S" ++ season ++ "E" ++ pad2 m) ⟨' ', ?_, by decide⟩
      rw [String.data_append, String.data_append, String.data_append]
      simp [show (" S" : String).data = [' ', 'S'] from rfl]
    have hpdf := pad2_props' m (by omega)
    have hparse : parseSE true (pfx ++ " S" ++ season ++ "E" ++ pad2 m)
        = some (season, pad2 m) := by
      have h := parseSE_canon pfx season (pad2 m).data hs hsd hpdf.1 hpdf.2.1
      rw [string_mk_data] at h
      exact h
    have hnext : next_episode_number pfx season names = some (m + 1) := by
      unfold next_episode_number
      simp only [hlast, hstem, hparse, beq_self_eq_true, if_true]
      rw [hpdf.2.2]
    have hfind : find_filename_core pfx season names
        = some (pfx ++ " S" ++ season ++ "E" ++ pad2 (m + 1)) := by
      unfold find_filename_core
      simp only [hlast, hstem, hparse, beq_self_eq_true, if_true]
      rw [hpdf.2.2]
    refine ⟨hnext, hfind, ?_, ?_⟩
    · intro n hn hfn
      rcases List.mem_append.mp hn with h1 | h2
      · obtain ⟨e, he1, he2, he3⟩ := hall n h1 hfn
        rw [List.mem_range] at he1
        exact ⟨e, by rw [List.mem_range]; omega, he2, he3⟩
      · have hn2 : n = canonName pfx season (m + 1) := by simpa using h2
        exact ⟨m + 1, by rw [List.mem_range]; omega, by omega, hn2⟩
    · exact Or.inr (by simp)

theorem seqNums_eq_range (pfx season : String)
    (hs : season.data ≠ []) (hsd : ∀ c ∈ season.data, c.isDigit = true) :
    ∀ (k : Nat) (names : List String) (m : Nat),
      Inv pfx season names m → m + k ≤ 99 →
      seqNums pfx season k names = List.range' (m + 1) k := by
  intro k
  induction k with
  | zero => intro names m _ _; rfl
  | succ k ih =>
    intro names m hinv hb
    obtain ⟨hn, hf, hinv2⟩ := sequencer_step pfx season names m hs hsd hinv (by omega)
    unfold seqNums
    simp only [hf, hn]
    rw [List.range'_succ]
    congr 1
    rw [show (pfx ++ " S" ++ season ++ "E" ++ pad2 (m + 1)) ++ ".mp4"
        = canonName pfx season (m + 1) from rfl]
    exact ih (names ++ [canonName pfx season (m + 1)]) (m + 1) hinv2 (by omega)

theorem chain_lt_range : ∀ (n s : Nat),
    List.Chain' (fun a b : Nat => a < b) (List.range' s n) := by
  intro n
  induction n with
  | zero => intro s; exact List.chain'_nil
  | succ k ih =>
    intro s
    rw [List.range'_succ]
    cases k with
    | zero => simp
    | succ k2 =>
      rw [List.range'_succ]
      refine List.chain'_cons.mpr ⟨by omega, ?_⟩
      rw [← List.range'_succ]
      exact ih (s + 1)

/-- C5 as amended: for a season token that is a nonempty digit string, and
starting from any folder state whose matching media names are exactly the
canonical sequencer outputs of that season (episode numbers 1..m with m
realised, or no matching names at all), repeated calls to the sequencer with
a media file created after each call produce strictly increasing episode
numbers with no repeats, as long as the assigned numbers stay at most 99
(they are in fact m+1, m+2, ...). -/
theorem sequencer_monotone_amended (pfx season : String) (names : List String) (m k : Nat)
    (hs : season.data ≠ []) (hsd : ∀ c ∈ season.data, c.isDigit = true)
    (hinv : Inv pfx season names m) (hb : m + k ≤ 99) :
    List.Chain' (fun a b : Nat => a < b) (seqNums pfx season k names)
    ∧ (seqNums pfx season k names).length = k := by
  rw [seqNums_eq_range pfx season hs hsd k names m hinv hb]
  exact ⟨chain_lt_range k (m + 1), by rw [List.length_range']⟩

/-- Witness for the amended C5 at a concrete input: empty folder, three
calls. -/
theorem sequencer_monotone_amended_witness :
    List.Chain' (fun a b : Nat => a < b) (seqNums "A" "24" 3 [])
    ∧ (seqNums "A" "24" 3 []).length = 3 :=
  sequencer_monotone_amended "A" "24" [] 0 3 (by decide) (by decide) (by decide) (by decide)

set_option maxRecDepth 20000 in
/-- Counterexample to C5 as stated: from the folder state containing the
single-digit name A S24E9.mp4, with season token 24, two sequencer calls
both assign episode number 10, because the created file A S24E10.mp4 sorts
lexicographically before A S24E9.mp4; the produced numbers repeat instead of
increasing strictly. -/
theorem sequencer_not_monotone_counterexample :
    seqNums "A" "24" 2 ["A S24E9.mp4"] = [10, 10]
    ∧ ¬ List.Chain' (fun a b : Nat => a < b) (seqNums "A" "24" 2 ["A S24E9.mp4"]) := by
  have h1 : seqNums "A" "24" 2 ["A S24E9.mp4"] = [10, 10] := by decide
  refine ⟨h1, ?_⟩
  rw [h1]
  intro hc
  rw [List.chain'_cons] at hc
  exact absurd hc.1 (by omega)

end Theorems

end ZDF
